import Mathlib

/-!
Verification development for the `solana_whale_watcher` repository.

The repository has two near-identical modules (`app/watcher/__init__.py` and
`app/watcher.py`), each with a pure extractor `extract_sol_changes` and an
async observer loop `monitor_solana`.  The package form
(`app/watcher/__init__.py`) is embedded here; the standalone script is
line-for-line identical in logic (it writes `delta / 1e9` where the package
writes `delta / LAMPORTS_PER_SOL`, the same value).

Modelling conventions:
* lamport balances and the fee are natural numbers, deltas are integers;
* Python float division `delta / 1e9` is modelled as exact division in `ℚ`
  (every comparison the claims exercise is robust to double rounding);
* Python exceptions are modelled with `Option`: `extract_sol_changes`
  returns `none` exactly when the Python function raises (an `IndexError`
  from `account_keys[i]`);
* the external libraries (`json.loads`, `Signature.from_string`,
  `Client.get_transaction`, the websocket) are oracles supplied as
  parameters, as the spec treats them as external collaborators.
-/

set_option maxRecDepth 8000

namespace WhaleWatcher

/-- Structure `UiTransactionStatusMeta` as consumed by `extract_sol_changes`
(`meta.pre_balances`, `meta.post_balances`, `meta.fee`). -/
structure UiTransactionStatusMeta where
  pre_balances : List Nat
  post_balances : List Nat
  fee : Nat
deriving Repr, DecidableEq

/-- Constant `LAMPORTS_PER_SOL = 1_000_000_000` (line 14 of `app/watcher/__init__.py`). -/
def LAMPORTS_PER_SOL : Nat := 1000000000

/-- One entry of the list returned by `extract_sol_changes` (the dict built
at lines 52–58 of `app/watcher/__init__.py`). -/
structure BalanceChangeEvent where
  account : String
  delta_lamports : Int
  delta_SOL : Rat
  direction : String
  reason : String
deriving Repr, DecidableEq

/-- The body of the `if before != after` branch of the loop of
`extract_sol_changes` (lines 41–58): the event built for index `i` with
balances `before`/`after` and account key `key`. -/
def changeEntry (fee : Nat) (i : Nat) (before after : Nat) (key : String) :
    BalanceChangeEvent :=
  let delta : Int := (after : Int) - (before : Int)
  let sol_delta : Rat := (delta : Rat) / (LAMPORTS_PER_SOL : Rat)
  let direction : String := if delta > 0 then "gain" else "loss"
  let reason : String :=
    if i = 0 ∧ delta < 0 ∧ delta.natAbs = fee then "fee"
    else if delta < 0 then "sent SOL or fee"
    else "received SOL"
  { account := key, delta_lamports := delta, delta_SOL := sol_delta,
    direction := direction, reason := reason }

/-- The loop `for i, (before, after) in enumerate(zip(pre, post))` of
`extract_sol_changes` (lines 40–58), with `i` the running index.  The Python
loop appends to `result`; `account_keys[i]` raises `IndexError` when `i` is
out of range, modelled by `none`. -/
def extractLoop (fee : Nat) (account_keys : List String) :
    Nat → List (Nat × Nat) → Option (List BalanceChangeEvent)
  | _, [] => some []
  | i, (before, after) :: rest =>
    if before = after then
      extractLoop fee account_keys (i + 1) rest
    else
      match account_keys.get? i with
      | none => none
      | some key =>
        (extractLoop fee account_keys (i + 1) rest).map
          (fun tail => changeEntry fee i before after key :: tail)

/-- Function `extract_sol_changes(meta, account_keys)` (lines 18–60 of
`app/watcher/__init__.py`): `some` list of events, or `none` when the Python
function raises. -/
def extract_sol_changes (meta : UiTransactionStatusMeta)
    (account_keys : List String) : Option (List BalanceChangeEvent) :=
  extractLoop meta.fee account_keys 0 (meta.pre_balances.zip meta.post_balances)

/-! ## The observer loop `monitor_solana`

The loop body (lines 89–123 of `app/watcher/__init__.py`) is

```
while count < max_events:
    msg = await ws.recv()          -- raises when the stream terminates
    data = json.loads(msg)         -- raises on unparsable JSON (OUTSIDE try)
    try:
        log_entry = data["params"]["result"]
        sig_str = log_entry["value"]["signature"]
        sig = Signature.from_string(sig_str)
        tx_resp = client.get_transaction(sig, ...)
        tx = tx_resp.value
        if tx is None: continue
        meta = tx.transaction.meta
        account_keys = tx.transaction.transaction.message.account_keys
        changes = extract_sol_changes(meta, account_keys)
        filtered = [c for c in changes if abs(c["delta_SOL"]) >= threshold_SOL]
        if filtered:
            for ch in filtered: logging.info(...)
            sol_changes_accum.extend(filtered)
            count += 1
    except Exception as e:
        logging.error(...); continue
return sol_changes_accum
```

The stream is modelled as the finite list of messages delivered before the
stream terminates; each message is `some j` when `json.loads` succeeds with
value `j` and `none` when `json.loads` raises.  The remote lookup and
signature parsing are oracle functions in `Env`.
-/

/-- A parsed JSON value, as returned by `json.loads`. -/
inductive Jsonish where
  | null
  | str (s : String)
  | num (n : Int)
  | arr (elems : List Jsonish)
  | obj (fields : List (String × Jsonish))

/-- Python `d[key]` on a parsed JSON value: `some` on a dict that has the
key, `none` when the subscript raises (`KeyError`/`TypeError`). -/
def Jsonish.getField : Jsonish → String → Option Jsonish
  | .obj fields, key => fields.lookup key
  | _, _ => none

/-- Payload path `data["params"]["result"]["value"]["signature"]` (lines 95–96). -/
def signaturePath (data : Jsonish) : Option Jsonish :=
  (((data.getField "params").bind
    (fun j => j.getField "result")).bind
      (fun j => j.getField "value")).bind
        (fun j => j.getField "signature")

/-- The part of a `get_transaction` response that `monitor_solana` reads:
`tx.transaction.meta` and `tx.transaction.transaction.message.account_keys`
(lines 108–109). -/
structure TransactionDetail where
  meta : UiTransactionStatusMeta
  account_keys : List String

/-- External collaborators consumed (not owned) by `monitor_solana`:
`Signature.from_string` (`none` = raises) and `client.get_transaction`
(`none` = the call raises, `some v` = it returns a response whose `.value`
is `v`, itself `none` when the transaction is unavailable). -/
structure Env where
  fromString : String → Option String
  get_transaction : String → Option (Option TransactionDetail)

/-- Outcome of the `try` body for one notification: `err` = an exception was
raised inside the `try` and caught at line 121; `skip` = `tx is None`, the
silent `continue` at line 106; `events filtered` = the body reached line 112
with the given threshold-filtered list. -/
inductive BodyOutcome where
  | err
  | skip
  | events (filtered : List BalanceChangeEvent)

/-- One log line: `logging.info` per emitted event (line 115) carrying the
interpolated data, or `logging.error` (line 122). -/
inductive LogLine where
  | eventLine (account direction : String) (absSOL : Rat) (reason : String)
  | errorLine

/-- The `try` body (lines 94–119) applied to one parsed notification `data`:
field extraction, signature parsing, detail lookup, extraction, filtering.
Every failure inside the `try` maps to `.err`. -/
def processNotification (env : Env) (threshold_SOL : Rat) (data : Jsonish) :
    BodyOutcome :=
  match signaturePath data with
  | some (.str sig_str) =>
    match env.fromString sig_str with
    | none => .err
    | some sig =>
      match env.get_transaction sig with
      | none => .err
      | some none => .skip
      | some (some tx) =>
        match extract_sol_changes tx.meta tx.account_keys with
        | none => .err
        | some changes =>
          .events (changes.filter (fun c => threshold_SOL ≤ |c.delta_SOL|))
  | some _ => .err
  | none => .err

/-- How one run of `monitor_solana` ends.
`ok` = the `while` condition failed and line 125 returned the accumulator
(`rest` is the part of the stream never consumed).
`streamEnded` = `ws.recv()` raised because the stream terminated; the
exception propagates out of the function carrying no events, so the
accumulator (recorded here) is never returned to the caller.
`parseCrash` = `json.loads` raised outside the `try`; likewise the
accumulator is lost and `rest` is never consumed. -/
inductive MonitorResult where
  | ok (events : List BalanceChangeEvent) (log : List LogLine)
      (rest : List (Option Jsonish))
  | streamEnded (accumLost : List BalanceChangeEvent) (log : List LogLine)
  | parseCrash (accumLost : List BalanceChangeEvent) (log : List LogLine)
      (rest : List (Option Jsonish))

/-- The log lines written for a qualifying notification (lines 114–117). -/
def eventLog (filtered : List BalanceChangeEvent) : List LogLine :=
  filtered.map (fun c => .eventLine c.account c.direction |c.delta_SOL| c.reason)

/-- The `while count < max_events` loop of `monitor_solana` (lines 90–123),
with the accumulator, counter and emitted log made explicit. -/
def monitorLoop (env : Env) (threshold_SOL : Rat) (max_events : Nat)
    (msgs : List (Option Jsonish)) (count : Nat)
    (accum : List BalanceChangeEvent) (log : List LogLine) : MonitorResult :=
    if count < max_events then
      match msgs with
      | [] => .streamEnded accum log
      | none :: rest => .parseCrash accum log rest
      | some data :: rest =>
        match processNotification env threshold_SOL data with
        | .err =>
          monitorLoop env threshold_SOL max_events rest count accum
            (log ++ [.errorLine])
        | .skip =>
          monitorLoop env threshold_SOL max_events rest count accum log
        | .events filtered =>
          if filtered.isEmpty then
            monitorLoop env threshold_SOL max_events rest count accum log
          else
            monitorLoop env threshold_SOL max_events rest (count + 1)
              (accum ++ filtered) (log ++ eventLog filtered)
    else .ok accum log msgs

/-- Function `monitor_solana(max_events, threshold_SOL)` run against a stream that
delivers `stream` and then terminates (lines 63–125). -/
def monitor_solana (env : Env) (max_events : Nat) (threshold_SOL : Rat)
    (stream : List (Option Jsonish)) : MonitorResult :=
  monitorLoop env threshold_SOL max_events stream 0 [] []

/-! ## Concrete run fixtures

A small concrete environment used to evaluate the model on closed inputs:
one transaction with two balance changes (the first scenario of §8 of the
spec), one with none, and every other signature unavailable. -/

/-- A transaction with two changed balances: `pre=[100,50]`, `post=[90,60]`,
`fee=10`, keys `["A","B"]`. -/
def txQ : TransactionDetail := ⟨⟨[100, 50], [90, 60], 10⟩, ["A", "B"]⟩

/-- A transaction with no balance change. -/
def txZ : TransactionDetail := ⟨⟨[5], [5], 0⟩, ["Z"]⟩

/-- A concrete environment: signature `"q"` resolves to `txQ`, `"z"` to
`txZ`, anything else to an unavailable transaction. -/
def envW : Env where
  fromString := fun s => some s
  get_transaction := fun s =>
    if s = "q" then some (some txQ)
    else if s = "z" then some (some txZ)
    else some none

/-- A well-formed notification message carrying signature `sig` at the
payload path `params.result.value.signature`. -/
def msgOf (sig : String) : Jsonish :=
  .obj [("params", .obj [("result", .obj [("value",
    .obj [("signature", .str sig)])])])]

/-- The two events extracted from `txQ`. -/
def qEvents : List BalanceChangeEvent :=
  [changeEntry 10 0 100 90 "A", changeEntry 10 1 50 60 "B"]

/-! ## Characterisation of the extractor -/

/-- Splitting a filter-then-map over `List.range (n + 1)` into its head
contribution and its shifted tail. -/
lemma range_succ_filter_map {α : Type} (P : Nat → Bool) (F : Nat → α) (n : Nat) :
    ((List.range (n + 1)).filter P).map F =
      (if P 0 then [F 0] else []) ++
        (((List.range n).filter (fun j => P (j + 1))).map (fun j => F (j + 1))) := by
  rw [List.range_succ_eq_map, List.filter_cons]
  by_cases h : P 0
  · simp [h, List.filter_map, List.map_map, Function.comp_def, Nat.succ_eq_add_one]
  · simp [h, List.filter_map, List.map_map, Function.comp_def, Nat.succ_eq_add_one]

/-- Reading `getD` on a zip of two lists, below both lengths. -/
lemma zip_getD (pre post : List Nat) (j : Nat)
    (h1 : j < pre.length) (h2 : j < post.length) :
    (pre.zip post).getD j (0, 0) = (pre.getD j 0, post.getD j 0) := by
  induction pre generalizing post j with
  | nil => simp at h1
  | cons x xs ih =>
    cases post with
    | nil => simp at h2
    | cons y ys =>
      cases j with
      | zero => simp
      | succ j => simpa using ih ys j (by simpa using h1) (by simpa using h2)

/-- Reading `get?` on a zip of two lists. -/
lemma zip_get?_eq (pre post : List Nat) (i : Nat) (b a : Nat)
    (hb : pre.get? i = some b) (ha : post.get? i = some a) :
    (pre.zip post).get? i = some (b, a) := by
  induction pre generalizing post i with
  | nil => simp at hb
  | cons x xs ih =>
    cases post with
    | nil => simp at ha
    | cons y ys =>
      cases i with
      | zero =>
        simp only [List.get?] at hb ha
        simp_all
      | succ i => simpa using ih ys i (by simpa using hb) (by simpa using ha)

/-- The loop of `extract_sol_changes`, run from index `i0` over the zipped
balance pairs `ps`, succeeds as soon as every changed index has an account
key, and returns exactly one entry per changed index, in increasing index
order. -/
lemma extractLoop_eq_spec (fee : Nat) (keys : List String) :
    ∀ (ps : List (Nat × Nat)) (i0 : Nat),
      (∀ j, j < ps.length → (ps.getD j (0, 0)).1 ≠ (ps.getD j (0, 0)).2 →
        i0 + j < keys.length) →
      extractLoop fee keys i0 ps =
        some (((List.range ps.length).filter
            (fun j => (ps.getD j (0, 0)).1 ≠ (ps.getD j (0, 0)).2)).map
          (fun j => changeEntry fee (i0 + j) (ps.getD j (0, 0)).1
            (ps.getD j (0, 0)).2 (keys.getD (i0 + j) ""))) := by
  intro ps
  induction ps with
  | nil => intro i0 _; simp [extractLoop]
  | cons p rest ih =>
    obtain ⟨b, a⟩ := p
    intro i0 hcov
    have hcov' : ∀ j, j < rest.length →
        (rest.getD j (0, 0)).1 ≠ (rest.getD j (0, 0)).2 →
        (i0 + 1) + j < keys.length := by
      intro j hj hne
      have := hcov (j + 1) (by simpa using Nat.succ_lt_succ hj)
        (by simpa using hne)
      omega
    rw [List.length_cons, range_succ_filter_map]
    simp only [List.getD_cons_zero, List.getD_cons_succ]
    by_cases hba : b = a
    · subst hba
      have hL : extractLoop fee keys i0 ((b, b) :: rest) =
          extractLoop fee keys (i0 + 1) rest := by
        simp [extractLoop]
      rw [hL, ih (i0 + 1) hcov']
      have hhead : (decide (b ≠ b)) = false := by simp
      rw [hhead]
      simp only [Bool.false_eq_true, if_false, List.nil_append]
      congr 1
      apply List.map_congr_left
      intro j _
      have hidx : i0 + 1 + j = i0 + (j + 1) := by omega
      rw [hidx]
    · have h0 : i0 < keys.length := by
        have := hcov 0 (Nat.succ_pos _) (by simpa using hba)
        simpa using this
      have hkey : keys.getD i0 "" = keys.get ⟨i0, h0⟩ :=
        List.getD_eq_get keys "" h0
      have hL : extractLoop fee keys i0 ((b, a) :: rest) =
          (extractLoop fee keys (i0 + 1) rest).map
            (fun tail => changeEntry fee i0 b a (keys.get ⟨i0, h0⟩) :: tail) := by
        simp only [extractLoop, if_neg hba, List.get?_eq_get h0]
      rw [hL, ih (i0 + 1) hcov']
      have hhead : (decide (b ≠ a)) = true := by simp [hba]
      rw [Option.map_some', hhead]
      simp only [if_true, List.singleton_append, Nat.add_zero, hkey]
      congr 2
      apply List.map_congr_left
      intro j _
      have hidx : i0 + 1 + j = i0 + (j + 1) := by omega
      rw [hidx]

/-- Central characterisation: whenever every changed index below
`min (len pre) (len post)` has an account key, `extract_sol_changes`
succeeds and returns exactly one `changeEntry` per changed index, in
increasing index order. -/
theorem extract_sol_changes_eq (meta : UiTransactionStatusMeta)
    (keys : List String)
    (hcov : ∀ i, i < min meta.pre_balances.length meta.post_balances.length →
      meta.pre_balances.getD i 0 ≠ meta.post_balances.getD i 0 →
      i < keys.length) :
    extract_sol_changes meta keys =
      some (((List.range
            (min meta.pre_balances.length meta.post_balances.length)).filter
          (fun i => meta.pre_balances.getD i 0 ≠ meta.post_balances.getD i 0)).map
        (fun i => changeEntry meta.fee i (meta.pre_balances.getD i 0)
          (meta.post_balances.getD i 0) (keys.getD i ""))) := by
  have hlen := List.length_zip meta.pre_balances meta.post_balances
  have hgd : ∀ j, j < min meta.pre_balances.length meta.post_balances.length →
      (meta.pre_balances.zip meta.post_balances).getD j (0, 0) =
        (meta.pre_balances.getD j 0, meta.post_balances.getD j 0) := by
    intro j hj
    exact zip_getD _ _ j (lt_min_iff.mp hj).1 (lt_min_iff.mp hj).2
  rw [extract_sol_changes, extractLoop_eq_spec meta.fee keys
    (meta.pre_balances.zip meta.post_balances) 0 ?cov]
  case cov =>
    intro j hj hne
    rw [hlen] at hj
    rw [hgd j hj] at hne
    simpa using hcov j hj hne
  congr 1
  rw [hlen]
  have hfil : (List.range
        (min meta.pre_balances.length meta.post_balances.length)).filter
      (fun j => decide
        (((meta.pre_balances.zip meta.post_balances).getD j (0, 0)).1 ≠
          ((meta.pre_balances.zip meta.post_balances).getD j (0, 0)).2)) =
      (List.range
        (min meta.pre_balances.length meta.post_balances.length)).filter
      (fun j => decide
        (meta.pre_balances.getD j 0 ≠ meta.post_balances.getD j 0)) := by
    apply List.filter_congr
    intro j hj
    rw [hgd j (List.mem_range.mp hj)]
  rw [hfil]
  apply List.map_congr_left
  intro j hj
  have hjlt : j < min meta.pre_balances.length meta.post_balances.length :=
    List.mem_range.mp (List.mem_filter.mp hj).1
  rw [hgd j hjlt]
  simp

/-- The entry built for a changed index `j` (with its account key present)
is a member of any successful run of the extraction loop. -/
lemma changeEntry_mem_extractLoop (fee : Nat) (keys : List String) :
    ∀ (ps : List (Nat × Nat)) (i0 j b a : Nat) (key : String)
      (l : List BalanceChangeEvent),
      extractLoop fee keys i0 ps = some l →
      ps.get? j = some (b, a) → b ≠ a → keys.get? (i0 + j) = some key →
      changeEntry fee (i0 + j) b a key ∈ l := by
  intro ps
  induction ps with
  | nil => intro i0 j b a key l _ hj; simp at hj
  | cons p rest ih =>
    obtain ⟨b', a'⟩ := p
    intro i0 j b a key l hext hj hba hk
    cases j with
    | zero =>
      have hj' : b' = b ∧ a' = a := by simpa using hj
      obtain ⟨rfl, rfl⟩ := hj'
      rw [Nat.add_zero] at hk ⊢
      simp only [extractLoop, if_neg hba, hk] at hext
      obtain ⟨t, _, rfl⟩ := Option.map_eq_some'.mp hext
      exact List.mem_cons_self _ _
    | succ j =>
      have hj' : rest.get? j = some (b, a) := by simpa using hj
      have hidx : i0 + (j + 1) = (i0 + 1) + j := by omega
      rw [hidx] at hk ⊢
      by_cases h' : b' = a'
      · simp only [extractLoop, if_pos h'] at hext
        exact ih (i0 + 1) j b a key l hext hj' hba hk
      · cases hko : keys.get? i0 with
        | none =>
          simp only [extractLoop, if_neg h', hko] at hext
          exact Option.noConfusion hext
        | some k0 =>
          simp only [extractLoop, if_neg h', hko] at hext
          obtain ⟨t, ht, rfl⟩ := Option.map_eq_some'.mp hext
          exact List.mem_cons_of_mem _ (ih (i0 + 1) j b a key t ht hj' hba hk)

/-- The entry built for a changed index `i` of a transaction is a member of
any successful `extract_sol_changes` run. -/
lemma changeEntry_mem_extract (meta : UiTransactionStatusMeta)
    (keys : List String) (i b a : Nat) (key : String)
    (l : List BalanceChangeEvent)
    (hext : extract_sol_changes meta keys = some l)
    (hb : meta.pre_balances.get? i = some b)
    (ha : meta.post_balances.get? i = some a)
    (hk : keys.get? i = some key) (hch : b ≠ a) :
    changeEntry meta.fee i b a key ∈ l := by
  have hz := zip_get?_eq meta.pre_balances meta.post_balances i b a hb ha
  have := changeEntry_mem_extractLoop meta.fee keys
    (meta.pre_balances.zip meta.post_balances) 0 i b a key l hext hz hch
    (by simpa using hk)
  simpa using this

/-- The `reason` of the entry for balances `b → a` is `"fee"` exactly when
the index is `0`, the balance decreased, and the loss equals the fee. -/
lemma changeEntry_reason_fee_iff (fee i b a : Nat) (key : String) :
    (changeEntry fee i b a key).reason = "fee" ↔
      (i = 0 ∧ a < b ∧ b - a = fee) := by
  simp only [changeEntry]
  split_ifs with h1 h2
  · obtain ⟨hi, hlt, habs⟩ := h1
    refine iff_of_true rfl ⟨hi, by omega, by omega⟩
  · refine iff_of_false (by decide) ?_
    rintro ⟨hi, hab, hfee⟩
    exact h1 ⟨hi, by omega, by omega⟩
  · refine iff_of_false (by decide) ?_
    rintro ⟨-, hab, -⟩
    exact h2 (by omega)

/-- A losing account gets `"sent SOL or fee"` unless the `"fee"` branch
fires. -/
lemma changeEntry_reason_sent (fee i b a : Nat) (key : String) (hab : a < b)
    (hnf : ¬(i = 0 ∧ b - a = fee)) :
    (changeEntry fee i b a key).reason = "sent SOL or fee" := by
  simp only [changeEntry]
  split_ifs with h1 h2
  · obtain ⟨hi, hlt, habs⟩ := h1
    exact absurd ⟨hi, by omega⟩ hnf
  · rfl
  · exact absurd (show ((a : Int) - b) < 0 by omega) h2

/-- A gaining account always gets `"received SOL"`. -/
lemma changeEntry_reason_received (fee i b a : Nat) (key : String)
    (hab : b < a) :
    (changeEntry fee i b a key).reason = "received SOL" := by
  simp only [changeEntry]
  split_ifs with h1 h2
  · obtain ⟨-, hlt, -⟩ := h1
    omega
  · omega
  · rfl

/-- Every event a successful extraction run produces has
`delta_SOL = delta_lamports / 10^9`. -/
lemma extractLoop_delta_SOL (fee : Nat) (keys : List String) :
    ∀ (ps : List (Nat × Nat)) (i0 : Nat) (l : List BalanceChangeEvent),
      extractLoop fee keys i0 ps = some l →
      ∀ e ∈ l, e.delta_SOL = (e.delta_lamports : Rat) / 1000000000 := by
  intro ps
  induction ps with
  | nil =>
    intro i0 l h e he
    simp only [extractLoop, Option.some.injEq] at h
    subst h
    simp at he
  | cons p rest ih =>
    obtain ⟨b, a⟩ := p
    intro i0 l h e he
    by_cases hba : b = a
    · simp only [extractLoop, if_pos hba] at h
      exact ih (i0 + 1) l h e he
    · cases hko : keys.get? i0 with
      | none =>
        simp only [extractLoop, if_neg hba, hko] at h
        exact Option.noConfusion h
      | some k0 =>
        simp only [extractLoop, if_neg hba, hko] at h
        obtain ⟨t, ht, rfl⟩ := Option.map_eq_some'.mp h
        rcases List.mem_cons.mp he with he | he
        · subst he
          simp [changeEntry, LAMPORTS_PER_SOL]
        · exact ih (i0 + 1) t ht e he

/-! ## Claim theorems for the extractor -/

/-- C1: On equal-length inputs, `extract_sol_changes` returns exactly
one event per index `i` with `pre[i] ≠ post[i]`, in increasing index order
(the result is literally the increasing list of changed indices mapped to
their entries), and no event for unchanged indices; in particular when
every balance is unchanged — including the empty snapshot — the result is
the empty list. -/
theorem extract_bijection_with_changed_indices
    (meta : UiTransactionStatusMeta) (keys : List String)
    (h1 : meta.pre_balances.length = meta.post_balances.length)
    (h2 : meta.post_balances.length = keys.length) :
    extract_sol_changes meta keys =
      some (((List.range meta.pre_balances.length).filter
          (fun i => meta.pre_balances.getD i 0 ≠ meta.post_balances.getD i 0)).map
        (fun i => changeEntry meta.fee i (meta.pre_balances.getD i 0)
          (meta.post_balances.getD i 0) (keys.getD i ""))) ∧
      (meta.pre_balances = meta.post_balances →
        extract_sol_changes meta keys = some []) := by
  have hcov : ∀ i,
      i < min meta.pre_balances.length meta.post_balances.length →
      meta.pre_balances.getD i 0 ≠ meta.post_balances.getD i 0 →
      i < keys.length := by
    intro i hi _
    omega
  have hmin : min meta.pre_balances.length meta.post_balances.length =
      meta.pre_balances.length := by omega
  constructor
  · rw [extract_sol_changes_eq meta keys hcov, hmin]
  · intro hpp
    rw [extract_sol_changes_eq meta keys hcov]
    simp [hpp]

/-- C1 witness: (the second scenario of §8 of the spec):
`pre=[100,50,0], post=[85,50,15], fee=10, keys=["A","B","C"]` yields the
entries for indices 0 and 2 only, in that order. -/
theorem extract_bijection_with_changed_indices_witness :
    extract_sol_changes ⟨[100, 50, 0], [85, 50, 15], 10⟩ ["A", "B", "C"] =
      some [changeEntry 10 0 100 85 "A", changeEntry 10 2 0 15 "C"] := by
  rw [(extract_bijection_with_changed_indices
    ⟨[100, 50, 0], [85, 50, 15], 10⟩ ["A", "B", "C"] rfl rfl).1]
  rfl

/-- C2: In any successful extraction, the event of a changed index `i`
(balances `b → a`, key `key`) carries reason `"fee"` iff `i = 0`, the
account lost, and the loss equals the fee; otherwise a loss is
`"sent SOL or fee"` (in particular any non-zero index whose loss equals the
fee) and a gain is `"received SOL"`. -/
theorem reason_priority (meta : UiTransactionStatusMeta) (keys : List String)
    (l : List BalanceChangeEvent) (i b a : Nat) (key : String)
    (hext : extract_sol_changes meta keys = some l)
    (hb : meta.pre_balances.get? i = some b)
    (ha : meta.post_balances.get? i = some a)
    (hk : keys.get? i = some key)
    (hch : b ≠ a) :
    ∃ e, e ∈ l ∧ e = changeEntry meta.fee i b a key ∧
      (e.reason = "fee" ↔ (i = 0 ∧ a < b ∧ b - a = meta.fee)) ∧
      ((a < b ∧ ¬(i = 0 ∧ b - a = meta.fee)) → e.reason = "sent SOL or fee") ∧
      (b < a → e.reason = "received SOL") := by
  refine ⟨changeEntry meta.fee i b a key,
    changeEntry_mem_extract meta keys i b a key l hext hb ha hk hch, rfl,
    changeEntry_reason_fee_iff meta.fee i b a key, ?_, ?_⟩
  · rintro ⟨hab, hnf⟩
    exact changeEntry_reason_sent meta.fee i b a key hab hnf
  · intro hab
    exact changeEntry_reason_received meta.fee i b a key hab

/-- C2 witness: account at index 1 losing exactly the fee amount is
classified `"sent SOL or fee"`, never `"fee"`. -/
theorem reason_priority_witness :
    (changeEntry 10 1 100 90 "B").reason = "sent SOL or fee" := by
  obtain ⟨e, hm, he, hf, hs, hr⟩ :=
    reason_priority ⟨[100, 100], [90, 90], 10⟩ ["A", "B"]
      [changeEntry 10 0 100 90 "A", changeEntry 10 1 100 90 "B"]
      1 100 90 "B" rfl rfl rfl rfl (by decide)
  rw [he] at hs
  exact hs ⟨by decide, by decide⟩

/-- C8: The event computed for an index `i` changed in two runs that
agree on the fee and on `pre[i]`, `post[i]`, `account_keys[i]` — but may
differ arbitrarily at every other index — is the same record (same delta,
direction and reason) in both runs. -/
theorem reason_independent_of_other_accounts
    (m1 m2 : UiTransactionStatusMeta) (k1 k2 : List String)
    (i b a : Nat) (key : String) (l1 l2 : List BalanceChangeEvent)
    (hx1 : extract_sol_changes m1 k1 = some l1)
    (hx2 : extract_sol_changes m2 k2 = some l2)
    (hfee : m1.fee = m2.fee)
    (hb1 : m1.pre_balances.get? i = some b)
    (hb2 : m2.pre_balances.get? i = some b)
    (ha1 : m1.post_balances.get? i = some a)
    (ha2 : m2.post_balances.get? i = some a)
    (hk1 : k1.get? i = some key)
    (hk2 : k2.get? i = some key)
    (hch : b ≠ a) :
    changeEntry m1.fee i b a key ∈ l1 ∧ changeEntry m1.fee i b a key ∈ l2 := by
  constructor
  · exact changeEntry_mem_extract m1 k1 i b a key l1 hx1 hb1 ha1 hk1 hch
  · rw [hfee]
    exact changeEntry_mem_extract m2 k2 i b a key l2 hx2 hb2 ha2 hk2 hch

/-- C8 witness: two runs agreeing only at index 1 (balances `100 → 90`,
key `"B"`, fee `10`) both contain the identical entry for it. -/
theorem reason_independent_of_other_accounts_witness :
    changeEntry 10 1 100 90 "B" ∈ [changeEntry 10 1 100 90 "B"] ∧
    changeEntry 10 1 100 90 "B" ∈
      [changeEntry 10 0 7 9 "Y", changeEntry 10 1 100 90 "B"] :=
  reason_independent_of_other_accounts
    ⟨[5, 100], [5, 90], 10⟩ ⟨[7, 100, 3], [9, 90, 3], 10⟩
    ["X", "B"] ["Y", "B", "Z"] 1 100 90 "B"
    [changeEntry 10 1 100 90 "B"]
    [changeEntry 10 0 7 9 "Y", changeEntry 10 1 100 90 "B"]
    rfl rfl rfl rfl rfl rfl rfl rfl rfl (by decide)

/-- C9: On well-formed equal-length inputs (including empty ones)
`extract_sol_changes` is total: it never raises and always returns a
(possibly empty) list. -/
theorem extract_total_on_equal_lengths (meta : UiTransactionStatusMeta)
    (keys : List String)
    (h1 : meta.pre_balances.length = meta.post_balances.length)
    (h2 : meta.post_balances.length = keys.length) :
    ∃ l, extract_sol_changes meta keys = some l :=
  ⟨_, extract_sol_changes_eq meta keys (by intro i hi _; omega)⟩

/-- C9 witness: the empty snapshot. -/
theorem extract_total_on_equal_lengths_witness :
    ∃ l, extract_sol_changes ⟨[], [], 0⟩ [] = some l :=
  extract_total_on_equal_lengths ⟨[], [], 0⟩ [] rfl rfl

/-- C10: On mismatched-length balance lists `extract_sol_changes`
raises no length-mismatch error: it silently truncates to the shorter
sequence (iterating only `i < min (len pre) (len post)`), and — provided
`account_keys` has an entry at every changed index below that minimum —
returns exactly the entries of the changed indices below it. -/
theorem extract_truncates_on_mismatch (meta : UiTransactionStatusMeta)
    (keys : List String)
    (hne : meta.pre_balances.length ≠ meta.post_balances.length)
    (hcov : ∀ i, i < min meta.pre_balances.length meta.post_balances.length →
      meta.pre_balances.getD i 0 ≠ meta.post_balances.getD i 0 →
      i < keys.length) :
    extract_sol_changes meta keys =
      some (((List.range
            (min meta.pre_balances.length meta.post_balances.length)).filter
          (fun i => meta.pre_balances.getD i 0 ≠ meta.post_balances.getD i 0)).map
        (fun i => changeEntry meta.fee i (meta.pre_balances.getD i 0)
          (meta.post_balances.getD i 0) (keys.getD i ""))) :=
  extract_sol_changes_eq meta keys hcov

/-- C10 witness: `pre` has three entries, `post` two; the run succeeds
and covers only the two indices below the minimum. -/
theorem extract_truncates_on_mismatch_witness :
    extract_sol_changes ⟨[100, 50, 7], [90, 60], 10⟩ ["A", "B"] =
      some [changeEntry 10 0 100 90 "A", changeEntry 10 1 50 60 "B"] := by
  rw [extract_truncates_on_mismatch ⟨[100, 50, 7], [90, 60], 10⟩ ["A", "B"]
    (by decide) ?cov]
  case cov =>
    intro i hi _
    have h2 : i < 2 := by simpa using hi
    simpa using h2
  rfl

/-- C7: Every extracted event has `delta_SOL = delta_lamports / 10^9`;
a zero threshold admits every event; and an event with
`delta_lamports = 500` is excluded by the threshold `0.000001`. -/
theorem delta_display_and_threshold :
    (∀ (meta : UiTransactionStatusMeta) (keys : List String)
        (l : List BalanceChangeEvent),
        extract_sol_changes meta keys = some l →
        ∀ e ∈ l, e.delta_SOL = (e.delta_lamports : Rat) / 1000000000) ∧
    (∀ l : List BalanceChangeEvent,
        l.filter (fun c => (0 : Rat) ≤ |c.delta_SOL|) = l) ∧
    ((extract_sol_changes ⟨[0], [500], 0⟩ ["A"]).map
        (fun l => l.filter (fun c => (1 / 1000000 : Rat) ≤ |c.delta_SOL|)) =
      some []) := by
  refine ⟨?_, ?_, ?_⟩
  · intro meta keys l hext e he
    exact extractLoop_delta_SOL meta.fee keys
      (meta.pre_balances.zip meta.post_balances) 0 l hext e he
  · intro l
    rw [List.filter_eq_self]
    intro e _
    simp [abs_nonneg]
  · rw [show extract_sol_changes ⟨[0], [500], 0⟩ ["A"] =
        some [changeEntry 0 0 0 500 "A"] from rfl, Option.map_some']
    have hds : (changeEntry 0 0 0 500 "A").delta_SOL = 1 / 2000000 := by
      simp only [changeEntry, LAMPORTS_PER_SOL]
      norm_num
    have hnot : ¬ ((1 / 1000000 : Rat) ≤
        |(changeEntry 0 0 0 500 "A").delta_SOL|) := by
      rw [hds, abs_of_nonneg (by norm_num)]
      norm_num
    simp only [List.filter_cons, decide_eq_true_eq, List.filter_nil]
    rw [if_neg hnot]

/-- C7 witness: the display delta of a concrete extracted event equals
its lamport delta divided by `10^9`. -/
theorem delta_display_and_threshold_witness :
    (changeEntry 10 0 100 90 "A").delta_SOL =
      ((changeEntry 10 0 100 90 "A").delta_lamports : Rat) / 1000000000 :=
  delta_display_and_threshold.1 ⟨[100, 50], [90, 60], 10⟩ ["A", "B"]
    [changeEntry 10 0 100 90 "A", changeEntry 10 1 50 60 "B"] rfl
    (changeEntry 10 0 100 90 "A") (List.mem_cons_self _ _)

/-! ## Step lemmas for the observer loop -/

/-- A zero threshold admits every event (`abs` is non-negative). -/
lemma filter_nonneg_abs (l : List BalanceChangeEvent) :
    l.filter (fun c => (0 : Rat) ≤ |c.delta_SOL|) = l := by
  rw [List.filter_eq_self]
  intro e _
  simp [abs_nonneg]

/-- An exception caught inside the `try` block: the loop logs an error line
and continues, leaving counter and accumulator untouched. -/
lemma monitorLoop_err_step (env : Env) (t : Rat) (max : Nat) (d : Jsonish)
    (rest : List (Option Jsonish)) (count : Nat)
    (accum : List BalanceChangeEvent) (log : List LogLine)
    (herr : processNotification env t d = .err) (hc : count < max) :
    monitorLoop env t max (some d :: rest) count accum log =
      monitorLoop env t max rest count accum (log ++ [.errorLine]) := by
  rw [monitorLoop.eq_def, if_pos hc]
  simp only [herr]

/-- Case `tx is None`: the loop continues with counter, accumulator and log all
untouched. -/
lemma monitorLoop_skip_step (env : Env) (t : Rat) (max : Nat) (d : Jsonish)
    (rest : List (Option Jsonish)) (count : Nat)
    (accum : List BalanceChangeEvent) (log : List LogLine)
    (hskip : processNotification env t d = .skip) (hc : count < max) :
    monitorLoop env t max (some d :: rest) count accum log =
      monitorLoop env t max rest count accum log := by
  rw [monitorLoop.eq_def, if_pos hc]
  simp only [hskip]

/-- An empty filtered set: no count increment, nothing appended. -/
lemma monitorLoop_empty_step (env : Env) (t : Rat) (max : Nat) (d : Jsonish)
    (rest : List (Option Jsonish)) (count : Nat)
    (accum : List BalanceChangeEvent) (log : List LogLine)
    (hev : processNotification env t d = .events []) (hc : count < max) :
    monitorLoop env t max (some d :: rest) count accum log =
      monitorLoop env t max rest count accum log := by
  rw [monitorLoop.eq_def, if_pos hc]
  simp only [hev, List.isEmpty_nil, if_true]

/-- A non-empty filtered set: the events are appended and logged and the
qualifying count advances by one. -/
lemma monitorLoop_qualify_step (env : Env) (t : Rat) (max : Nat)
    (d : Jsonish) (rest : List (Option Jsonish)) (count : Nat)
    (accum : List BalanceChangeEvent) (log : List LogLine)
    (f : List BalanceChangeEvent)
    (hev : processNotification env t d = .events f) (hne : f ≠ [])
    (hc : count < max) :
    monitorLoop env t max (some d :: rest) count accum log =
      monitorLoop env t max rest (count + 1) (accum ++ f)
        (log ++ eventLog f) := by
  rw [monitorLoop.eq_def, if_pos hc]
  simp only [hev]
  rw [if_neg (by simpa [List.isEmpty_iff] using hne)]

/-- Stream exhausted while the count is still short of `max_events`:
`ws.recv()` raises and the run ends in the exceptional state. -/
lemma monitorLoop_stream_end (env : Env) (t : Rat) (max count : Nat)
    (accum : List BalanceChangeEvent) (log : List LogLine)
    (hc : count < max) :
    monitorLoop env t max [] count accum log = .streamEnded accum log := by
  rw [monitorLoop.eq_def, if_pos hc]

/-- An unparsable message: `json.loads` raises outside the `try` and the
run ends in the exceptional state. -/
lemma monitorLoop_parse_crash (env : Env) (t : Rat) (max : Nat)
    (rest : List (Option Jsonish)) (count : Nat)
    (accum : List BalanceChangeEvent) (log : List LogLine)
    (hc : count < max) :
    monitorLoop env t max (none :: rest) count accum log =
      .parseCrash accum log rest := by
  rw [monitorLoop.eq_def, if_pos hc]

/-- Count satisfied: the loop exits normally returning the accumulator. -/
lemma monitorLoop_done (env : Env) (t : Rat) (max : Nat)
    (msgs : List (Option Jsonish)) (count : Nat)
    (accum : List BalanceChangeEvent) (log : List LogLine)
    (hc : ¬ count < max) :
    monitorLoop env t max msgs count accum log = .ok accum log msgs := by
  rw [monitorLoop.eq_def, if_neg hc]

/-- Evaluating the notification pipeline on the concrete fixture: signature
`"q"` yields the two `txQ` events (zero threshold keeps both). -/
lemma processNotification_q :
    processNotification envW 0 (msgOf "q") = .events qEvents := by
  rw [show processNotification envW 0 (msgOf "q") =
      .events (qEvents.filter (fun c => (0 : Rat) ≤ |c.delta_SOL|)) from rfl,
    filter_nonneg_abs]

/-- Signature `"z"` yields no events. -/
lemma processNotification_z :
    processNotification envW 0 (msgOf "z") = .events [] := rfl

/-! ## Claim theorems for the observer -/

/-- C3: With `max_events = 3` and threshold `0`, against a stream of
five parsable notifications of which exactly three (the 1st, 3rd and 4th)
yield a non-empty filtered event set, the run returns exactly the
concatenation of those three filtered sets, the count advances only on
them, and the 5th notification is never consumed. -/
theorem observe_counts_qualifying_and_stops (env : Env)
    (d1 d2 d3 d4 d5 : Jsonish) (f1 f3 f4 : List BalanceChangeEvent)
    (h1 : processNotification env 0 d1 = .events f1) (h1n : f1 ≠ [])
    (h2 : processNotification env 0 d2 = .events [])
    (h3 : processNotification env 0 d3 = .events f3) (h3n : f3 ≠ [])
    (h4 : processNotification env 0 d4 = .events f4) (h4n : f4 ≠ [])
    (h5 : processNotification env 0 d5 = .events []) :
    monitor_solana env 3 0 [some d1, some d2, some d3, some d4, some d5] =
      .ok (f1 ++ f3 ++ f4) (eventLog f1 ++ eventLog f3 ++ eventLog f4)
        [some d5] := by
  rw [monitor_solana,
    monitorLoop_qualify_step env 0 3 d1 _ 0 [] [] f1 h1 h1n (by omega),
    monitorLoop_empty_step env 0 3 d2 _ 1 _ _ h2 (by omega),
    monitorLoop_qualify_step env 0 3 d3 _ 1 _ _ f3 h3 h3n (by omega),
    monitorLoop_qualify_step env 0 3 d4 _ 2 _ _ f4 h4 h4n (by omega),
    monitorLoop_done env 0 3 _ 3 _ _ (by omega)]
  simp [List.append_assoc]

/-- C3 witness: the concrete fixture stream
`[q, z, q, q, z]` with `max_events = 3`, threshold `0`. -/
theorem observe_counts_qualifying_and_stops_witness :
    monitor_solana envW 3 0
      [some (msgOf "q"), some (msgOf "z"), some (msgOf "q"),
        some (msgOf "q"), some (msgOf "z")] =
      .ok (qEvents ++ qEvents ++ qEvents)
        (eventLog qEvents ++ eventLog qEvents ++ eventLog qEvents)
        [some (msgOf "z")] :=
  observe_counts_qualifying_and_stops envW (msgOf "q") (msgOf "z")
    (msgOf "q") (msgOf "q") (msgOf "z") qEvents qEvents qEvents
    processNotification_q (List.cons_ne_nil _ _) processNotification_z
    processNotification_q (List.cons_ne_nil _ _)
    processNotification_q (List.cons_ne_nil _ _) processNotification_z

/-- C4 counterexample: The claim says a malformed or unparsable JSON
stream message is caught at per-notification granularity and never
terminates the loop.  It is false: `json.loads` runs outside the `try`, so
one unparsable message interleaved between two valid qualifying ones
terminates the run after the first (result `.parseCrash`, accumulator
lost), and the valid third message is never consumed. -/
theorem unparsable_message_crashes_loop :
    monitor_solana envW 2 0 [some (msgOf "q"), none, some (msgOf "q")] =
      .parseCrash qEvents (eventLog qEvents) [some (msgOf "q")] := by
  rw [monitor_solana,
    monitorLoop_qualify_step envW 0 2 (msgOf "q") _ 0 [] [] qEvents
      processNotification_q (List.cons_ne_nil _ _) (by omega),
    monitorLoop_parse_crash envW 0 2 _ 1 _ _ (by omega)]
  simp

/-- C4 amended: Exceptions raised inside the per-notification `try`
block — missing payload field, bad signature, lookup failure, extraction
failure — are caught: the notification yields nothing beyond one error log
line and the loop continues with count and accumulator untouched.  But a
message that fails JSON parsing is decoded outside the `try`: it raises out
of the loop, terminating the run and discarding the accumulator. -/
theorem try_block_isolation (env : Env) (t : Rat) (max : Nat) (d : Jsonish)
    (rest : List (Option Jsonish)) (count : Nat)
    (accum : List BalanceChangeEvent) (log : List LogLine)
    (hc : count < max) :
    (processNotification env t d = .err →
      monitorLoop env t max (some d :: rest) count accum log =
        monitorLoop env t max rest count accum (log ++ [.errorLine])) ∧
    monitorLoop env t max (none :: rest) count accum log =
      .parseCrash accum log rest :=
  ⟨fun herr => monitorLoop_err_step env t max d rest count accum log herr hc,
    monitorLoop_parse_crash env t max rest count accum log hc⟩

/-- C4 witness: a parsable notification with a missing payload field
(`null` has no `params`) is caught and costs only an error log line. -/
theorem try_block_isolation_witness :
    monitorLoop envW 0 2 [some .null] 0 [] [] =
      monitorLoop envW 0 2 [] 0 [] ([] ++ [.errorLine]) ∧
    monitorLoop envW 0 2 [none] 0 [] [] = .parseCrash [] [] [] := by
  have h := try_block_isolation envW 0 2 .null [] 0 [] [] (by omega)
  exact ⟨h.1 rfl, h.2⟩

/-- C5 counterexample: The claim says a run whose stream terminates
before the count reaches `max_events` ends with the partially accumulated
result delivered to the caller.  It is false: after one qualifying
notification and stream termination with `max_events = 2`, the run ends in
the exceptional `.streamEnded` state (the `ConnectionClosed` exception
propagates past `return`), not in the `.ok` state that line 125 alone can
produce — the accumulated events are never returned. -/
theorem stream_end_partial_not_delivered :
    monitor_solana envW 2 0 [some (msgOf "q")] =
      .streamEnded qEvents (eventLog qEvents) := by
  rw [monitor_solana,
    monitorLoop_qualify_step envW 0 2 (msgOf "q") _ 0 [] [] qEvents
      processNotification_q (List.cons_ne_nil _ _) (by omega),
    monitorLoop_stream_end envW 0 2 1 _ _ (by omega)]
  simp

/-- C5 amended: When the stream terminates before the qualifying
count reaches `max_events`, the run ends in the stream-termination state
carrying the partial accumulator away with the propagating exception: the
`async with` block closes the subscription on the way out, but the partial
result is discarded, never delivered as a return value. -/
theorem stream_end_discards_partial (env : Env) (t : Rat) (max count : Nat)
    (accum : List BalanceChangeEvent) (log : List LogLine)
    (hc : count < max) :
    monitorLoop env t max [] count accum log = .streamEnded accum log :=
  monitorLoop_stream_end env t max count accum log hc

/-- C5 witness: a partial accumulator of one qualifying notification. -/
theorem stream_end_discards_partial_witness :
    monitorLoop envW 0 2 [] 1 qEvents (eventLog qEvents) =
      .streamEnded qEvents (eventLog qEvents) :=
  stream_end_discards_partial envW 0 2 1 qEvents (eventLog qEvents)
    (by omega)

/-- C6: A notification whose detail lookup returns no transaction
(`tx is None`) is skipped silently: the body yields `.skip` (not the
logged `.err`), and the loop continues with the qualifying count, the
accumulator and the log all unchanged. -/
theorem lookup_none_skips_silently (env : Env) (t : Rat) (max : Nat)
    (d : Jsonish) (sig_str sig : String) (rest : List (Option Jsonish))
    (count : Nat) (accum : List BalanceChangeEvent) (log : List LogLine)
    (hpath : signaturePath d = some (.str sig_str))
    (hfrom : env.fromString sig_str = some sig)
    (hlook : env.get_transaction sig = some none)
    (hc : count < max) :
    processNotification env t d = .skip ∧
    monitorLoop env t max (some d :: rest) count accum log =
      monitorLoop env t max rest count accum log := by
  have hp : processNotification env t d = .skip := by
    simp only [processNotification, hpath, hfrom, hlook]
  exact ⟨hp, monitorLoop_skip_step env t max d rest count accum log hp hc⟩

/-- C6 witness: signature `"u"` resolves to an unavailable
transaction. -/
theorem lookup_none_skips_silently_witness :
    processNotification envW 0 (msgOf "u") = .skip ∧
    monitorLoop envW 0 2 [some (msgOf "u")] 0 [] [] =
      monitorLoop envW 0 2 [] 0 [] [] :=
  lookup_none_skips_silently envW 0 2 (msgOf "u") "u" "u" [] 0 [] []
    rfl rfl rfl (by omega)

end WhaleWatcher
